import Mathlib

/-!
Verification of the Go-Kafka notification system core
(transactional-outbox publisher, broker client, consumer-group runtime,
scheduler trigger loops) against its natural-language specification.

The Go source is shallowly embedded: the persistent store (PostgreSQL
tables) becomes an explicit `Store` record of lists of rows, the broker
becomes an append-only message log, SQL queries become pure list
functions mirroring their WHERE / ORDER BY / LIMIT clauses, and fallible
calls take explicit success oracles.  JSON values are modelled by the
inductive `JValue` (numbers as integers; floating point is out of scope
of the embedding).  UUIDs and timestamps are modelled as naturals.
-/

/-- Model of a JSON value (Go `interface\x7b\x7d` as produced by
`encoding/json`); numbers are modelled as integers. -/
inductive JValue where
  | jnull : JValue
  | jbool : Bool → JValue
  | jnum : Int → JValue
  | jstr : String → JValue
  | jarr : List JValue → JValue
  | jobj : List (String × JValue) → JValue
deriving Repr

/-- UUIDs are modelled as naturals; `uuidStr` models `uuid.UUID.String()`. -/
def uuidStr (n : Nat) : String := toString n

/-- Row of the `notifications` table
(`pkg/models.Notification`, part_003). -/
structure Notification where
  id : Nat
  userId : Nat
  ntype : String
  channel : String
  priority : String
  title : Option String
  message : String
  metadata : JValue
  status : String
  createdAt : Nat
  scheduledFor : Option Nat
  sentAt : Option Nat
  deliveredAt : Option Nat
  readAt : Option Nat
deriving Repr

/-- Row of the `outbox_notifications` table
(`pkg/models.OutboxNotification`, part_003). -/
structure OutboxEntry where
  id : Nat
  notificationId : Nat
  topic : String
  payload : JValue
  published : Bool
  createdAt : Nat
  publishedAt : Option Nat
deriving Repr

/-- Row of the `users` table (`pkg/models.User`, part_003). -/
structure User where
  id : Nat
  name : String
  email : String
deriving Repr, DecidableEq

/-- Row of the `user_notification_preferences` table
(`pkg/models.UserNotificationPreferences`, part_003). -/
structure Preference where
  userId : Nat
  ptype : String
  channel : String
  enabled : Bool
deriving Repr, DecidableEq

/-- Row of the `user_engagement_streaks` table
(`pkg/models.UserEngagementStreak`, part_003). -/
structure Streak where
  userId : Nat
  streakType : String
  currentStreak : Nat
  lastActivityDate : Option Nat
deriving Repr, DecidableEq

/-- The durable event store: the database tables accessed by the
repository (`pkg/repository`, part_002). -/
structure Store where
  notifications : List Notification
  outbox : List OutboxEntry
  users : List User
  prefs : List Preference
  streaks : List Streak
deriving Repr

/-- A message in the broker's log for one topic
(`sarama.ProducerMessage` with its key and encoded value). -/
structure BrokerMessage where
  topic : String
  key : String
  value : JValue
deriving Repr

/-- `created_at::date` / `current_date`: the calendar day of a timestamp
(timestamps are seconds, a day is 86400 seconds). -/
def dateOf (t : Nat) : Nat := t / 86400

/- ===== Repository operations (PostgresNotificationRepository, part_002) ===== -/

/-- `CreateNotification` (repository): INSERT INTO notifications. -/
def repoCreateNotification (st : Store) (n : Notification) : Store :=
  { st with notifications := st.notifications ++ [n] }

/-- The serial primary key the database assigns to the next
`outbox_notifications` row. -/
def nextOutboxId (st : Store) : Nat :=
  (st.outbox.map (fun e => e.id)).foldr Nat.max 0 + 1

/-- `CreateOutboxEntry` (repository): INSERT INTO outbox_notifications
(notification_id, topic, payload, published, created_at); the serial id
is assigned by the database. -/
def repoCreateOutboxEntry (st : Store) (item : OutboxEntry) : Store :=
  { st with outbox := st.outbox ++ [{ item with id := nextOutboxId st }] }

/-- `MarkOutboxPublished` (repository): UPDATE outbox_notifications SET
published = true, published_at = now WHERE id = outboxID. -/
def repoMarkOutboxPublished (st : Store) (oid : Nat) (now : Nat) : Store :=
  { st with outbox := st.outbox.map (fun e =>
      if e.id = oid then { e with published := true, publishedAt := some now } else e) }

/-- `MarkAsRead` (repository): UPDATE notifications SET read_at, status = read. -/
def repoMarkAsRead (st : Store) (nid : Nat) (now : Nat) : Store :=
  { st with notifications := st.notifications.map (fun n =>
      if n.id = nid then { n with readAt := some now, status := "read" } else n) }

/-- `MarkAsDelivered` (repository): UPDATE notifications SET delivered_at,
status = delivered. -/
def repoMarkAsDelivered (st : Store) (nid : Nat) (now : Nat) : Store :=
  { st with notifications := st.notifications.map (fun n =>
      if n.id = nid then { n with deliveredAt := some now, status := "delivered" } else n) }

/-- `MarkAsSent` (repository): UPDATE notifications SET sent_at, status = sent. -/
def repoMarkAsSent (st : Store) (nid : Nat) (now : Nat) : Store :=
  { st with notifications := st.notifications.map (fun n =>
      if n.id = nid then { n with sentAt := some now, status := "sent" } else n) }

/-- `UpdateUserPreferences` (repository): upsert of one preference row
keyed by (user, type, channel). -/
def repoUpdateUserPreferences (st : Store) (uid : Nat) (p : Preference) : Store :=
  let p := { p with userId := uid }
  if st.prefs.any (fun q => q.userId = uid && q.ptype = p.ptype && q.channel = p.channel) then
    { st with prefs := st.prefs.map (fun q =>
        if q.userId = uid && q.ptype = p.ptype && q.channel = p.channel then p else q) }
  else
    { st with prefs := st.prefs ++ [p] }

/-- `UpdateUserEngagementStreak` (repository): upsert of one streak row. -/
def repoUpdateStreak (st : Store) (s : Streak) : Store :=
  if st.streaks.any (fun q => q.userId = s.userId && q.streakType = s.streakType) then
    { st with streaks := st.streaks.map (fun q =>
        if q.userId = s.userId && q.streakType = s.streakType then s else q) }
  else
    { st with streaks := st.streaks ++ [s] }

/-- The ORDER BY created_at ASC relation used by the outbox query. -/
def outboxLE (a b : OutboxEntry) : Prop := a.createdAt ≤ b.createdAt

instance : DecidableRel outboxLE := fun a b => Nat.decLe a.createdAt b.createdAt

instance : IsTotal OutboxEntry outboxLE :=
  ⟨fun a b => Nat.le_total a.createdAt b.createdAt⟩

instance : IsTrans OutboxEntry outboxLE :=
  ⟨fun _ _ _ h h' => Nat.le_trans h h'⟩

/-- `GetUnpublishedOutbox` (repository):
SELECT ... FROM outbox_notifications WHERE published = false
ORDER BY created_at ASC LIMIT limit. -/
def getUnpublishedOutbox (st : Store) (limit : Nat) : List OutboxEntry :=
  (List.insertionSort outboxLE (st.outbox.filter (fun e => !e.published))).take limit

/-- The ORDER BY created_at DESC relation used by the user query. -/
def notifGE (a b : Notification) : Prop := b.createdAt ≤ a.createdAt

instance : DecidableRel notifGE := fun a b => Nat.decLe b.createdAt a.createdAt

/-- `GetUserNotifications` (repository):
SELECT ... FROM notifications WHERE user_id = userID
ORDER BY created_at DESC LIMIT limit OFFSET offset. -/
def repoGetUserNotifications (st : Store) (uid : Nat) (limit offset : Int) :
    List Notification :=
  (((List.insertionSort notifGE (st.notifications.filter (fun n => n.userId = uid)))).drop
      offset.toNat).take limit.toNat

/-- `GetUserEngagementStreak` (repository): SELECT ... WHERE user_id AND
streak_type; no row is an error, modelled as none. -/
def repoGetUserEngagementStreak (st : Store) (uid : Nat) (stype : String) :
    Option Streak :=
  st.streaks.find? (fun s => s.userId = uid && s.streakType = stype)

/-- One mutating repository operation, for stating store invariants over
everything the repository can do to the store. -/
inductive RepoOp where
  | createNotif : Notification → RepoOp
  | markRead : Nat → Nat → RepoOp
  | markDelivered : Nat → Nat → RepoOp
  | markSent : Nat → Nat → RepoOp
  | createOutbox : OutboxEntry → RepoOp
  | markOutboxPub : Nat → Nat → RepoOp
  | updatePrefs : Nat → Preference → RepoOp
  | updateStreak : Streak → RepoOp

/-- Interpret a repository operation on the store. -/
def applyRepoOp (op : RepoOp) (st : Store) : Store :=
  match op with
  | .createNotif n => repoCreateNotification st n
  | .markRead nid now => repoMarkAsRead st nid now
  | .markDelivered nid now => repoMarkAsDelivered st nid now
  | .markSent nid now => repoMarkAsSent st nid now
  | .createOutbox item => repoCreateOutboxEntry st item
  | .markOutboxPub oid now => repoMarkOutboxPublished st oid now
  | .updatePrefs uid p => repoUpdateUserPreferences st uid p
  | .updateStreak s => repoUpdateStreak st s

/- ===== Notification service (internal/services/notification_service.go) ===== -/

/-- `models.IsValidNotificationType` (part_003). -/
def isValidNotificationType (t : String) : Bool :=
  ["daily_reminder", "streak_reminder", "last_chance_alert", "achievement_unlock",
   "xp_goal_reminder", "league_update", "we_miss_you", "event_notification",
   "new_course", "practice_needed", "weekly_recap"].any (fun v => v = t)

/-- `models.IsValidChannel` (part_003). -/
def isValidChannel (c : String) : Bool :=
  ["in_app", "push", "email", "sms"].any (fun v => v = c)

/-- The denormalized JSON payload snapshot written into the outbox row
(literal from CreateNotification / CreateDailyReminder / the scheduler). -/
def payloadOf (n : Notification) : JValue :=
  .jobj [("id", .jstr (uuidStr n.id)),
         ("user_id", .jstr (uuidStr n.userId)),
         ("type", .jstr n.ntype),
         ("channel", .jstr n.channel),
         ("priority", .jstr n.priority),
         ("title", match n.title with | some t => .jstr t | none => .jnull),
         ("message", .jstr n.message),
         ("created_at", .jnum n.createdAt)]

/-- `models.CreateNotificationRequest` (part_003). -/
structure CreateRequest where
  userId : Nat
  rtype : String
  channel : String
  priority : String
  title : Option String
  message : String
  metadata : JValue
  scheduledFor : Option Nat
deriving Repr

/-- `sarama.ProducerMessage` built by ProcessOutbox: topic from the
entry, key `item.NotificationID.String()`, value the marshalled payload
(`notification_service.go` lines 258..262). -/
def mkProducerMessage (item : OutboxEntry) : BrokerMessage :=
  { topic := item.topic, key := uuidStr item.notificationId, value := item.payload }

/-- Result of one ProcessOutbox tick: the store, the broker's message
log, and whether the tick returned without error. -/
structure OutboxResult where
  store : Store
  log : List BrokerMessage
  ok : Bool
deriving Repr

/-- The for-loop of ProcessOutbox over the fetched batch: publish each
entry (the broker accepts attempt i iff `sendOk i`), then mark it
published; on a send error return immediately, leaving the remainder of
the batch untouched (`notification_service.go` lines 256..277). -/
def publishLoop (now : Nat) (sendOk : Nat → Bool) :
    Nat → Store → List BrokerMessage → List OutboxEntry → OutboxResult
  | _, st, log, [] => ⟨st, log, true⟩
  | i, st, log, item :: rest =>
    if sendOk i then
      publishLoop now sendOk (i + 1) (repoMarkOutboxPublished st item.id now)
        (log ++ [mkProducerMessage item]) rest
    else
      ⟨st, log, false⟩

/-- `ProcessOutbox` (`notification_service.go` lines 249..280): fetch up
to 100 unpublished outbox entries oldest-first and run the publish loop
over them. -/
def processOutbox (st : Store) (log : List BrokerMessage) (now : Nat)
    (sendOk : Nat → Bool) : OutboxResult :=
  publishLoop now sendOk 0 st log (getUnpublishedOutbox st 100)

/-- Result of the service CreateNotification call: the store and either
the created notification or an error (`none`). -/
structure CreateResult where
  store : Store
  result : Option Notification
deriving Repr

/-- Service `CreateNotification` (`notification_service.go` lines
47..106): validate type and channel, INSERT the notification row, then
INSERT the outbox row; the two inserts are separate repository calls and
an error in either is returned as-is (`okNotif` / `okOutbox` are the
success oracles of the two inserts; a failed insert writes nothing).
The OUTBOX_IMMEDIATE_PUBLISH branch (lines 100..103) only runs an eager
ProcessOutbox tick, which never removes rows; it is modelled disabled,
the default of the unset environment variable. -/
def createNotificationService (st : Store) (req : CreateRequest)
    (newId now : Nat) (topic : String) (okNotif okOutbox : Bool) : CreateResult :=
  if !isValidNotificationType req.rtype then ⟨st, none⟩
  else if !isValidChannel req.channel then ⟨st, none⟩
  else
    let n : Notification :=
      { id := newId, userId := req.userId, ntype := req.rtype,
        channel := req.channel, priority := req.priority, title := req.title,
        message := req.message, metadata := req.metadata, status := "queued",
        createdAt := now, scheduledFor := req.scheduledFor,
        sentAt := none, deliveredAt := none, readAt := none }
    if !okNotif then ⟨st, none⟩
    else
      let st1 := repoCreateNotification st n
      let item : OutboxEntry :=
        { id := 0, notificationId := n.id, topic := topic,
          payload := payloadOf n, published := false, createdAt := now,
          publishedAt := none }
      if !okOutbox then ⟨st1, none⟩
      else ⟨repoCreateOutboxEntry st1 item, some n⟩

/-- Service `GetUserNotifications` default limit. -/
def normalizeLimit (limit : Int) : Int := if limit ≤ 0 then 50 else limit

/-- Service `GetUserNotifications` offset clamping. -/
def normalizeOffset (offset : Int) : Int := if offset < 0 then 0 else offset

/-- Service `GetUserNotifications` (`notification_service.go` lines
109..118): replace a non-positive limit by the default 50 and a negative
offset by 0, then query the repository. -/
def getUserNotificationsService (st : Store) (uid : Nat) (limit offset : Int) :
    List Notification :=
  repoGetUserNotifications st uid (normalizeLimit limit) (normalizeOffset offset)

/- ===== Scheduler service (cmd/scheduler/scheduler.go) ===== -/

/-- The cohort predicate of `getUsersNeedingDailyReminders` (scheduler.go
lines 254..288): has an enabled daily_reminder/in_app preference AND no
daily_reminder notification created today (the NOT EXISTS guard). -/
def needsDailyReminder (st : Store) (now : Nat) (u : User) : Bool :=
  (st.prefs.any (fun p =>
      p.userId = u.id && p.ptype = "daily_reminder" && p.channel = "in_app" && p.enabled))
    && !(st.notifications.any (fun n =>
      n.userId = u.id && n.ntype = "daily_reminder" && dateOf n.createdAt = dateOf now))

/-- `getUsersNeedingDailyReminders`: SELECT DISTINCT users joined with an
enabled daily_reminder/in_app preference, excluding users with a
daily_reminder created today. -/
def getUsersNeedingDailyReminders (st : Store) (now : Nat) : List User :=
  st.users.filter (needsDailyReminder st now)

/-- The daily-reminder notification literal built by the scheduler's
`createDailyReminder` (scheduler.go lines 432..442). -/
def dailyReminderNotification (u : User) (nid now : Nat) (streakDays : Nat) :
    Notification :=
  { id := nid, userId := u.id, ntype := "daily_reminder", channel := "in_app",
    priority := "medium", title := some "Time to Practice!",
    message := "Hey " ++ u.name ++ "! It is time for your daily practice session. Keep your "
      ++ toString streakDays ++ "-day streak alive!",
    metadata := .jobj [], status := "queued", createdAt := now,
    scheduledFor := none, sentAt := none, deliveredAt := none, readAt := none }

/-- Scheduler `createDailyReminder` (scheduler.go lines 418..473): look
up the practice streak (an error falls back to streak 0), INSERT the
daily-reminder notification, then INSERT its outbox entry (whose error is
only logged). -/
def createDailyReminderSched (st : Store) (u : User) (nid now : Nat) : Store :=
  let currentStreak :=
    match repoGetUserEngagementStreak st u.id "practice" with
    | some s => s.currentStreak
    | none => 0
  let n := dailyReminderNotification u nid now currentStreak
  let st1 := repoCreateNotification st n
  let item : OutboxEntry :=
    { id := 0, notificationId := n.id, topic := "notifications",
      payload := payloadOf n, published := false, createdAt := now,
      publishedAt := none }
  repoCreateOutboxEntry st1 item

/-- The per-user loop of `processDailyReminders`: create one reminder per
cohort user (fresh notification ids from `base` upward). -/
def dailyLoop (now : Nat) : List User → Store → Nat → Store
  | [], st, _ => st
  | u :: us, st, base => dailyLoop now us (createDailyReminderSched st u base now) (base + 1)

/-- One `processDailyReminders` tick (scheduler.go lines 152..173): query
the cohort once, then create a reminder for each user in it. -/
def processDailyReminders (st : Store) (now : Nat) (base : Nat) : Store :=
  dailyLoop now (getUsersNeedingDailyReminders st now) st base

/-- Number of daily_reminder notifications for user `uid` on day `d`. -/
def countDaily (st : Store) (uid : Nat) (d : Nat) : Nat :=
  (st.notifications.filter (fun n =>
    n.userId = uid && n.ntype = "daily_reminder" && dateOf n.createdAt = d)).length

/- ===== Consumer group runtime (cmd/consumer/consumer.go) ===== -/

/-- The in-memory Delivery Store (`NotificationStore`, consumer.go lines
54..72): per-recipient append-only lists, modelled as the flat list of
(key, notification) insertions (`Add` appends, `Get` filters by key). -/
abbrev DeliveryStore : Type := List (String × Notification)

/-- `NotificationStore.Add` (consumer.go lines 61..66). -/
def deliveryAdd (ds : DeliveryStore) (uid : String) (n : Notification) : DeliveryStore :=
  ds ++ [(uid, n)]

/-- `NotificationStore.Get` (consumer.go lines 68..72). -/
def deliveryGet (ds : DeliveryStore) (uid : String) : List Notification :=
  (ds.filter (fun e => e.1 = uid)).map (fun e => e.2)

/-- A claimed broker message as seen by the consumer: its key bytes and
its value bytes (the value is decoded by `json.Unmarshal`). -/
structure ClaimedMessage where
  key : String
  value : String
deriving Repr, DecidableEq

/-- Consumer state while draining a claim: the Delivery Store plus the
sequence of messages whose offsets were marked (`sess.MarkMessage`). -/
structure ConsumeState where
  store : DeliveryStore
  marked : List ClaimedMessage

/-- `ConsumeClaim` (consumer.go lines 82..96): for each claimed message,
decode the value; on a decode error log and continue with the next
message (no retry, no dead-letter sink exists); on success add the
notification to the Delivery Store under the message key and mark the
offset.  The decoder is a parameter standing for `json.Unmarshal`. -/
def consumeClaim (decode : String → Option Notification) :
    ConsumeState → List ClaimedMessage → ConsumeState
  | s, [] => s
  | s, m :: rest =>
    match decode m.value with
    | none => consumeClaim decode s rest
    | some n =>
      consumeClaim decode ⟨deliveryAdd s.store m.key n, s.marked ++ [m]⟩ rest

/-- States of the consumer's reconnect loop (`setupConsumerGroup`,
consumer.go lines 111..148): disconnected (waiting out the fixed backoff
before the next attempt), connecting (initializing the consumer group),
consuming, and stopped (only on context cancellation). -/
inductive CState where
  | disconnected : CState
  | connecting : CState
  | consuming : CState
  | stopped : CState
deriving Repr, DecidableEq

/-- What the environment does during one step of the loop: whether
initialization succeeds, whether `Consume` returns an error, and whether
the shared context got cancelled at the step's cancellation checkpoint
(the select on ctx.Done during a wait, or the ctx.Err check after a
clean Consume return). -/
structure CEvent where
  initOk : Bool
  consumeErr : Bool
  cancelled : Bool
deriving Repr, DecidableEq

/-- The fixed reconnect delay of the loop (`backoff := 5 * time.Second`). -/
def backoffSeconds : Nat := 5

/-- One step of `setupConsumerGroup`, returning the next state and the
seconds waited: disconnected waits the fixed 5s backoff then connects
(unless cancelled first); connecting moves to consuming on success and
back to the wait on an initialization error; consuming returns to the
wait on a consume error, keeps consuming on a clean return, and stops
when the clean-return ctx.Err check sees cancellation. -/
def consumerStep (s : CState) (e : CEvent) : CState × Nat :=
  match s with
  | .disconnected => if e.cancelled then (.stopped, 0) else (.connecting, backoffSeconds)
  | .connecting => if e.initOk then (.consuming, 0) else (.disconnected, 0)
  | .consuming =>
    if e.consumeErr then (.disconnected, 0)
    else if e.cancelled then (.stopped, 0) else (.consuming, 0)
  | .stopped => (.stopped, 0)

/-- Run the loop over a sequence of environment events. -/
def runConsumer (s : CState) (evs : List CEvent) : CState :=
  evs.foldl (fun s e => (consumerStep s e).1) s

/- ===== Theorems ===== -/

/-- C9: the service GetUserNotifications replaces a limit that is at most
0 by the default 50 and a negative offset by 0 before querying the
store, so the underlying repository query is always invoked with a limit
of at least 1 and an offset of at least 0. -/
theorem getUserNotifications_normalizes (st : Store) (uid : Nat) (limit offset : Int) :
    1 ≤ normalizeLimit limit ∧ 0 ≤ normalizeOffset offset
      ∧ (limit ≤ 0 → normalizeLimit limit = 50)
      ∧ (offset < 0 → normalizeOffset offset = 0)
      ∧ getUserNotificationsService st uid limit offset
          = repoGetUserNotifications st uid (normalizeLimit limit) (normalizeOffset offset) := by
  refine ⟨?_, ?_, ?_, ?_, rfl⟩
  · simp only [normalizeLimit]; split <;> omega
  · simp only [normalizeOffset]; split <;> omega
  · intro h; simp only [normalizeLimit]; split <;> omega
  · intro h; simp only [normalizeOffset]; split <;> omega

/-- C9 witness: the normalization at the concrete call limit = -3,
offset = -2 on the empty store. -/
theorem getUserNotifications_normalizes_witness :
    1 ≤ normalizeLimit (-3) ∧ 0 ≤ normalizeOffset (-2)
      ∧ ((-3 : Int) ≤ 0 → normalizeLimit (-3) = 50)
      ∧ ((-2 : Int) < 0 → normalizeOffset (-2) = 0)
      ∧ getUserNotificationsService ⟨[], [], [], [], []⟩ 7 (-3) (-2)
          = repoGetUserNotifications ⟨[], [], [], [], []⟩ 7 (normalizeLimit (-3)) (normalizeOffset (-2)) :=
  getUserNotifications_normalizes ⟨[], [], [], [], []⟩ 7 (-3) (-2)

/-- C8: the consumer retry loop reaches the stopped state only on
external cancellation (a run over any sequence of uncancelled events
never stops); a consume error or an initialization error sends it back
to disconnected, from which, uncancelled, it waits the fixed 5-second
backoff and connects again; cancellation observed during the wait or
after a clean consume return stops it. -/
theorem consumerRetryLoop_spec :
    backoffSeconds = 5
  ∧ (∀ evs : List CEvent, (∀ e ∈ evs, e.cancelled = false) →
      ∀ s, s ≠ CState.stopped → runConsumer s evs ≠ CState.stopped)
  ∧ (∀ s e, (consumerStep s e).1 = CState.stopped → s = CState.stopped ∨ e.cancelled = true)
  ∧ (∀ e, e.consumeErr = true → consumerStep CState.consuming e = (CState.disconnected, 0))
  ∧ (∀ e, e.initOk = false → consumerStep CState.connecting e = (CState.disconnected, 0))
  ∧ (∀ e, e.cancelled = false → consumerStep CState.disconnected e = (CState.connecting, backoffSeconds))
  ∧ (∀ e, e.cancelled = true → consumerStep CState.disconnected e = (CState.stopped, 0))
  ∧ (∀ e, e.consumeErr = false → e.cancelled = true →
      consumerStep CState.consuming e = (CState.stopped, 0)) := by
  refine ⟨rfl, ?_, ?_, ?_, ?_, ?_, ?_, ?_⟩
  · intro evs
    induction evs with
    | nil => intro _ s hs; simpa [runConsumer] using hs
    | cons e rest ih =>
      intro hall s hs
      have he : e.cancelled = false := hall e (List.mem_cons_self e rest)
      have hrest : ∀ x ∈ rest, x.cancelled = false :=
        fun x hx => hall x (List.mem_cons_of_mem e hx)
      have hstep : (consumerStep s e).1 ≠ CState.stopped := by
        cases s with
        | stopped => exact absurd rfl hs
        | disconnected => simp [consumerStep, he]
        | connecting => simp only [consumerStep]; split <;> simp
        | consuming => simp only [consumerStep, he]; split <;> simp
      simpa [runConsumer, List.foldl_cons] using ih hrest _ hstep
  · intro s e h
    cases s with
    | stopped => exact Or.inl rfl
    | disconnected =>
      by_cases hc : e.cancelled = true
      · exact Or.inr hc
      · simp [consumerStep, hc] at h
    | connecting =>
      cases hI : e.initOk <;> simp [consumerStep, hI] at h
    | consuming =>
      by_cases hc : e.cancelled = true
      · exact Or.inr hc
      · cases hE : e.consumeErr <;> simp [consumerStep, hE, hc] at h
  · intro e h; simp [consumerStep, h]
  · intro e h; simp [consumerStep, h]
  · intro e h; simp [consumerStep, h]
  · intro e h; simp [consumerStep, h]
  · intro e h h2; simp [consumerStep, h, h2]

/-- C8 witness: a consume error at a concrete event sends consuming back
to disconnected, and a concrete uncancelled two-event run does not stop. -/
theorem consumerRetryLoop_spec_witness :
    consumerStep CState.consuming ⟨true, true, false⟩ = (CState.disconnected, 0)
  ∧ runConsumer CState.connecting [⟨true, false, false⟩, ⟨true, true, false⟩] ≠ CState.stopped :=
  ⟨consumerRetryLoop_spec.2.2.2.1 ⟨true, true, false⟩ rfl,
   consumerRetryLoop_spec.2.1 [⟨true, false, false⟩, ⟨true, true, false⟩]
     (by intro e he; simp at he; rcases he with h | h <;> simp [h])
     CState.connecting (by simp)⟩

/-- C7: a claimed message whose value fails decoding is dropped: the
consumer logs and moves to the next message, the Delivery Store receives
nothing for it, its offset is not marked, and consumption continues; in
general a claim run adds to the store exactly the decodable messages (in
order) and marks exactly those — there is no retry and no dead-letter
sink in the state at all. -/
theorem consumeClaim_malformed_dropped :
    (∀ (decode : String → Option Notification) (s : ConsumeState)
        (m : ClaimedMessage) (rest : List ClaimedMessage),
        decode m.value = none →
        consumeClaim decode s (m :: rest) = consumeClaim decode s rest)
  ∧ (∀ (decode : String → Option Notification) (s : ConsumeState)
        (msgs : List ClaimedMessage),
        (consumeClaim decode s msgs).store
          = s.store ++ msgs.filterMap (fun m => (decode m.value).map (fun n => (m.key, n)))
      ∧ (consumeClaim decode s msgs).marked
          = s.marked ++ msgs.filter (fun m => (decode m.value).isSome)) := by
  constructor
  · intro decode s m rest h
    simp [consumeClaim, h]
  · intro decode s msgs
    induction msgs generalizing s with
    | nil => simp [consumeClaim]
    | cons m rest ih =>
      cases h : decode m.value with
      | none => simpa [consumeClaim, h] using ih s
      | some n =>
        have := ih ⟨deliveryAdd s.store m.key n, s.marked ++ [m]⟩
        simp [consumeClaim, h, deliveryAdd] at this ⊢
        exact ⟨this.1, this.2⟩

/-- C7 witness: with a concrete decoder that rejects everything, a
concrete malformed message is dropped and the run over it continues with
the rest. -/
theorem consumeClaim_malformed_dropped_witness :
    consumeClaim (fun _ => none) ⟨[], []⟩ [⟨"u1", "bad"⟩, ⟨"u2", "also-bad"⟩]
      = consumeClaim (fun _ => none) ⟨[], []⟩ [⟨"u2", "also-bad"⟩] :=
  consumeClaim_malformed_dropped.1 (fun _ => none) ⟨[], []⟩ ⟨"u1", "bad"⟩ [⟨"u2", "also-bad"⟩] rfl

/-- C6: the published flag only moves from false to true.
CreateOutboxEntry appends the given row (published = false at every
call site), MarkOutboxPublished sets published = true together with
published_at, and no repository operation turns a published entry back
to unpublished. -/
theorem outboxPublished_monotone :
    (∀ (op : RepoOp) (st : Store) (e : OutboxEntry),
        e ∈ st.outbox → e.published = true →
        ∃ e' ∈ (applyRepoOp op st).outbox, e'.id = e.id ∧ e'.published = true)
  ∧ (∀ (st : Store) (item : OutboxEntry), item.published = false →
        ∃ newE, (repoCreateOutboxEntry st item).outbox = st.outbox ++ [newE]
          ∧ newE.published = false ∧ newE.notificationId = item.notificationId)
  ∧ (∀ (st : Store) (oid now : Nat) (e : OutboxEntry),
        e ∈ st.outbox → e.id = oid →
        ∃ e' ∈ (repoMarkOutboxPublished st oid now).outbox,
          e'.id = oid ∧ e'.published = true ∧ e'.publishedAt = some now) := by
  refine ⟨?_, ?_, ?_⟩
  · intro op st e he hpub
    cases op with
    | createNotif n =>
      exact ⟨e, by simpa [applyRepoOp, repoCreateNotification] using he, rfl, hpub⟩
    | markRead nid now =>
      exact ⟨e, by simpa [applyRepoOp, repoMarkAsRead] using he, rfl, hpub⟩
    | markDelivered nid now =>
      exact ⟨e, by simpa [applyRepoOp, repoMarkAsDelivered] using he, rfl, hpub⟩
    | markSent nid now =>
      exact ⟨e, by simpa [applyRepoOp, repoMarkAsSent] using he, rfl, hpub⟩
    | createOutbox item =>
      refine ⟨e, ?_, rfl, hpub⟩
      simp only [applyRepoOp, repoCreateOutboxEntry]
      exact List.mem_append_left _ he
    | markOutboxPub oid now =>
      refine ⟨(fun x => if x.id = oid then
          { x with published := true, publishedAt := some now } else x) e, ?_, ?_, ?_⟩
      · simpa [applyRepoOp, repoMarkOutboxPublished] using List.mem_map_of_mem _ he
      · by_cases hid : e.id = oid <;> simp [hid]
      · by_cases hid : e.id = oid <;> simp [hid, hpub]
    | updatePrefs uid p =>
      refine ⟨e, ?_, rfl, hpub⟩
      simp only [applyRepoOp, repoUpdateUserPreferences]
      split <;> simpa using he
    | updateStreak sk =>
      refine ⟨e, ?_, rfl, hpub⟩
      simp only [applyRepoOp, repoUpdateStreak]
      split <;> simpa using he
  · intro st item hitem
    exact ⟨{ item with id := nextOutboxId st }, rfl, by simpa using hitem, rfl⟩
  · intro st oid now e he hid
    refine ⟨{ e with published := true, publishedAt := some now }, ?_, by simpa using hid, rfl, rfl⟩
    have hm := List.mem_map_of_mem (fun x => if x.id = oid then
        { x with published := true, publishedAt := some now } else x) he
    simpa [repoMarkOutboxPublished, hid] using hm

/-- Concrete unpublished outbox row used by witnesses. -/
def entryW : OutboxEntry :=
  { id := 1, notificationId := 10, topic := "notifications",
    payload := JValue.jobj [], published := false, createdAt := 3,
    publishedAt := none }

/-- Concrete store used by witnesses. -/
def storeW : Store := ⟨[], [entryW], [], [], []⟩

/-- C6 witness: marking the concrete single-entry store publishes entry 1. -/
theorem outboxPublished_monotone_witness :
    ∃ e' ∈ (repoMarkOutboxPublished storeW 1 9).outbox,
      e'.id = 1 ∧ e'.published = true ∧ e'.publishedAt = some 9 :=
  outboxPublished_monotone.2.2 storeW 1 9 entryW (by simp [storeW]) rfl

/-- C5: GetUnpublishedOutbox returns only entries with published =
false, sorted oldest-first by creation time, at most limit of them, and
omits no unpublished entry older than a returned one: any unpublished
entry left out is at least as new as everything returned. -/
theorem getUnpublishedOutbox_spec (st : Store) (limit : Nat) :
    (∀ e ∈ getUnpublishedOutbox st limit, e.published = false)
  ∧ List.Sorted outboxLE (getUnpublishedOutbox st limit)
  ∧ (getUnpublishedOutbox st limit).length ≤ limit
  ∧ (∀ e ∈ st.outbox, e.published = false → e ∉ getUnpublishedOutbox st limit →
      ∀ r ∈ getUnpublishedOutbox st limit, r.createdAt ≤ e.createdAt) := by
  refine ⟨?_, ?_, ?_, ?_⟩
  · intro e he
    have h1 : e ∈ List.insertionSort outboxLE (st.outbox.filter (fun x => !x.published)) :=
      List.mem_of_mem_take he
    have h2 : e ∈ st.outbox.filter (fun x => !x.published) :=
      (List.mem_insertionSort outboxLE).1 h1
    simpa using List.of_mem_filter h2
  · exact List.Pairwise.sublist (List.take_sublist _ _) (List.sorted_insertionSort outboxLE _)
  · exact List.length_take_le _ _
  · intro e he hpub hnot r hr
    have hes : e ∈ List.insertionSort outboxLE (st.outbox.filter (fun x => !x.published)) := by
      rw [List.mem_insertionSort, List.mem_filter]
      exact ⟨he, by simp [hpub]⟩
    have hdrop : e ∈ (List.insertionSort outboxLE
        (st.outbox.filter (fun x => !x.published))).drop limit := by
      rcases List.mem_append.1 (by
          rw [List.take_append_drop limit (List.insertionSort outboxLE
            (st.outbox.filter (fun x => !x.published)))]
          exact hes) with h | h
      · exact absurd h hnot
      · exact h
    exact (List.sorted_insertionSort outboxLE _).rel_of_mem_take_of_mem_drop hr hdrop

/-- Concrete published outbox row used by witnesses. -/
def entryWpub : OutboxEntry :=
  { id := 2, notificationId := 11, topic := "notifications",
    payload := JValue.jobj [], published := true, createdAt := 1,
    publishedAt := some 2 }

/-- Concrete newer unpublished outbox row used by witnesses. -/
def entryWnew : OutboxEntry :=
  { id := 3, notificationId := 12, topic := "notifications",
    payload := JValue.jobj [], published := false, createdAt := 8,
    publishedAt := none }

/-- C5 witness: the query contract at a concrete three-row store with
limit 1. -/
theorem getUnpublishedOutbox_spec_witness :
    (∀ e ∈ getUnpublishedOutbox ⟨[], [entryWpub, entryWnew, entryW], [], [], []⟩ 1,
        e.published = false)
  ∧ List.Sorted outboxLE (getUnpublishedOutbox ⟨[], [entryWpub, entryWnew, entryW], [], [], []⟩ 1)
  ∧ (getUnpublishedOutbox ⟨[], [entryWpub, entryWnew, entryW], [], [], []⟩ 1).length ≤ 1
  ∧ (∀ e ∈ ([entryWpub, entryWnew, entryW] : List OutboxEntry), e.published = false →
      e ∉ getUnpublishedOutbox ⟨[], [entryWpub, entryWnew, entryW], [], [], []⟩ 1 →
      ∀ r ∈ getUnpublishedOutbox ⟨[], [entryWpub, entryWnew, entryW], [], [], []⟩ 1,
        r.createdAt ≤ e.createdAt) :=
  getUnpublishedOutbox_spec ⟨[], [entryWpub, entryWnew, entryW], [], [], []⟩ 1

/-- Concrete event used for the C1 evaluation: notification 10 of
recipient 20. -/
def notifC1 : Notification :=
  { id := 10, userId := 20, ntype := "daily_reminder", channel := "in_app",
    priority := "medium", title := none, message := "m",
    metadata := JValue.jobj [], status := "queued", createdAt := 0,
    scheduledFor := none, sentAt := none, deliveredAt := none, readAt := none }

/-- Concrete outbox row for notification 10. -/
def entryC1 : OutboxEntry :=
  { id := 1, notificationId := notifC1.id, topic := "notifications",
    payload := payloadOf notifC1, published := false, createdAt := 0,
    publishedAt := none }

/-- Concrete store for the C1 evaluation. -/
def storeC1 : Store := ⟨[notifC1], [entryC1], [], [], []⟩

/-- C1: evaluating ProcessOutbox on a store holding one pending entry
for notification 10 of recipient 20 with an error-free broker: exactly
one message is produced and its value is the payload carrying the event
id, but its key is the notification (event) id "10", not the recipient
id "20" — the code keys by `item.NotificationID.String()`, so messages
of one recipient do not share a partition key (while the consumer reads
the key back as the user id). -/
theorem processOutbox_key_is_event_id_not_recipient :
    (processOutbox storeC1 [] 5 (fun _ => true)).ok = true
  ∧ (processOutbox storeC1 [] 5 (fun _ => true)).log.map (fun m => m.key)
      = [uuidStr notifC1.id]
  ∧ (processOutbox storeC1 [] 5 (fun _ => true)).log.map (fun m => m.value)
      = [payloadOf notifC1]
  ∧ notifC1.userId = 20
  ∧ uuidStr notifC1.id ≠ uuidStr notifC1.userId := by
  refine ⟨rfl, rfl, rfl, rfl, by decide⟩

/-- Marking every entry of a batch published, in order: the fold the
ProcessOutbox loop performs on the store across an error-free run. -/
def markAllPublished (now : Nat) (st : Store) (es : List OutboxEntry) : Store :=
  es.foldl (fun s e => repoMarkOutboxPublished s e.id now) st

/-- The store-level effect of marking the ids in `ids`. -/
def markFn (ids : List Nat) (now : Nat) (e : OutboxEntry) : OutboxEntry :=
  if e.id ∈ ids then { e with published := true, publishedAt := some now } else e

theorem markAll_outbox : ∀ (es : List OutboxEntry) (st : Store) (now : Nat),
    (markAllPublished now st es).outbox
      = st.outbox.map (markFn (es.map (fun x => x.id)) now)
  | [], st, now => by
    simp only [markAllPublished, List.foldl_nil, List.map_nil]
    have : ∀ e, markFn [] now e = e := by intro e; simp [markFn]
    rw [List.map_congr_left (fun e _ => this e)]
    simp
  | a :: es, st, now => by
    have ih := markAll_outbox es (repoMarkOutboxPublished st a.id now) now
    calc (markAllPublished now st (a :: es)).outbox
        = (markAllPublished now (repoMarkOutboxPublished st a.id now) es).outbox := rfl
      _ = (repoMarkOutboxPublished st a.id now).outbox.map
            (markFn (es.map (fun x => x.id)) now) := ih
      _ = st.outbox.map (markFn ((a :: es).map (fun x => x.id)) now) := by
          rw [repoMarkOutboxPublished, List.map_map]
          refine List.map_congr_left ?_
          intro e _
          by_cases hid : e.id = a.id
          · simp [Function.comp, markFn, hid]
          · by_cases hmem : e.id ∈ es.map (fun x => x.id) <;>
              simp [Function.comp, markFn, hid, hmem]

/-- The publish loop stops at the first failing send, having marked and
logged exactly the entries before it. -/
theorem publishLoop_stops (now : Nat) (sendOk : Nat → Bool) :
    ∀ (entries : List OutboxEntry) (k i : Nat) (st : Store) (log : List BrokerMessage),
      k < entries.length → (∀ j, j < k → sendOk (i + j) = true) → sendOk (i + k) = false →
      publishLoop now sendOk i st log entries
        = ⟨markAllPublished now st (entries.take k),
           log ++ (entries.take k).map mkProducerMessage, false⟩
  | [], k, i, st, log, hk, _, _ => absurd hk (by simp)
  | a :: es, 0, i, st, log, _, _, hfail => by
    have h0 : sendOk i = false := by simpa using hfail
    simp [publishLoop, h0, markAllPublished]
  | a :: es, k + 1, i, st, log, hk, hok, hfail => by
    have h0 : sendOk i = true := by simpa using hok 0 (Nat.succ_pos k)
    have ih := publishLoop_stops now sendOk es k (i + 1)
      (repoMarkOutboxPublished st a.id now) (log ++ [mkProducerMessage a])
      (by simpa using Nat.lt_of_succ_lt_succ hk)
      (fun j hj => by
        have := hok (j + 1) (Nat.succ_lt_succ hj)
        simpa [Nat.add_assoc, Nat.add_comm 1 j] using this)
      (by
        have : i + 1 + k = i + (k + 1) := by omega
        rw [this]; exact hfail)
    simp only [publishLoop, h0, if_pos]
    rw [ih]
    simp [markAllPublished, List.take_cons]

/-- The publish loop over an error-free batch marks and logs everything. -/
theorem publishLoop_all_ok (now : Nat) (sendOk : Nat → Bool) :
    ∀ (entries : List OutboxEntry) (i : Nat) (st : Store) (log : List BrokerMessage),
      (∀ j, j < entries.length → sendOk (i + j) = true) →
      publishLoop now sendOk i st log entries
        = ⟨markAllPublished now st entries, log ++ entries.map mkProducerMessage, true⟩
  | [], i, st, log, _ => by simp [publishLoop, markAllPublished]
  | a :: es, i, st, log, hok => by
    have h0 : sendOk i = true := by simpa using hok 0 (Nat.succ_pos _)
    have ih := publishLoop_all_ok now sendOk es (i + 1)
      (repoMarkOutboxPublished st a.id now) (log ++ [mkProducerMessage a])
      (fun j hj => by
        have := hok (j + 1) (Nat.succ_lt_succ hj)
        simpa [Nat.add_assoc, Nat.add_comm 1 j] using this)
    simp only [publishLoop, h0, if_pos]
    rw [ih]
    simp [markAllPublished]

/-- Filtering commutes with ordered insertion of a kept element into a
sorted list. -/
theorem filter_orderedInsert_pos {α : Type} {r : α → α → Prop} [DecidableRel r]
    [IsTrans α r] (p : α → Bool) (a : α) (hp : p a = true) :
    ∀ L : List α, List.Sorted r L →
      List.filter p (List.orderedInsert r a L) = List.orderedInsert r a (List.filter p L)
  | [], _ => by simp [hp]
  | b :: L, hs => by
    by_cases hab : r a b
    · by_cases hpb : p b = true
      · simp [List.orderedInsert, hab, hp, hpb, List.filter_cons]
      · simp only [List.orderedInsert, if_pos hab, List.filter_cons, hp, hpb,
          if_true, if_false, Bool.false_eq_true]
        cases hL : List.filter p L with
        | nil => simp [List.orderedInsert]
        | cons c t =>
          have hc : c ∈ List.filter p L := by rw [hL]; exact List.mem_cons_self _ _
          have hcL : c ∈ L := List.mem_of_mem_filter hc
          have hbc : r b c := List.rel_of_sorted_cons hs c hcL
          have hac : r a c := IsTrans.trans a b c hab hbc
          simp [List.orderedInsert, hac]
    · have hs' : List.Sorted r L := hs.of_cons
      by_cases hpb : p b = true <;>
        simp [List.orderedInsert, hab, hpb, List.filter_cons,
          filter_orderedInsert_pos p a hp L hs']

/-- Ordered insertion of a filtered-out element vanishes under the
filter. -/
theorem filter_orderedInsert_neg {α : Type} {r : α → α → Prop} [DecidableRel r]
    (p : α → Bool) (a : α) (hp : p a = false) :
    ∀ L : List α, List.filter p (List.orderedInsert r a L) = List.filter p L
  | [] => by simp [hp]
  | b :: L => by
    by_cases hab : r a b
    · simp [List.orderedInsert, hab, hp, List.filter_cons]
    · by_cases hpb : p b = true <;>
        simp [List.orderedInsert, hab, hpb, List.filter_cons,
          filter_orderedInsert_neg p a hp L]

/-- Insertion sort is stable, so it commutes with filtering. -/
theorem insertionSort_filter {α : Type} {r : α → α → Prop} [DecidableRel r]
    [IsTotal α r] [IsTrans α r] (p : α → Bool) :
    ∀ l : List α,
      List.insertionSort r (List.filter p l) = List.filter p (List.insertionSort r l)
  | [] => by simp
  | a :: l => by
    by_cases hpa : p a = true
    · simp only [List.filter_cons, hpa, if_true, List.insertionSort]
      rw [insertionSort_filter p l,
        filter_orderedInsert_pos p a hpa _ (List.sorted_insertionSort r l)]
    · simp only [List.filter_cons, hpa, List.insertionSort, Bool.false_eq_true, if_false]
      rw [insertionSort_filter p l, filter_orderedInsert_neg p a
        (by simpa using hpa)]

/-- Removing the elements of the length-`k` prefix of a list with
pairwise-distinct keys, by key, is dropping that prefix. -/
theorem filter_notMem_take {α β : Type} [DecidableEq β] (f : α → β) :
    ∀ (k : Nat) (L : List α), (L.map f).Nodup →
      L.filter (fun e => !decide (f e ∈ (L.take k).map f)) = L.drop k
  | 0, L, _ => by simp
  | k + 1, [], _ => by simp
  | k + 1, a :: L, hnd => by
    have hnd2 : (∀ x ∈ L, ¬ f x = f a) ∧ (List.map f L).Nodup := by simpa using hnd
    rw [List.take_succ_cons, List.drop_succ_cons]
    simp only [List.map_cons, List.filter_cons]
    rw [if_neg (by simp)]
    have hcong : L.filter (fun e => !decide (f e ∈ f a :: (L.take k).map f))
        = L.filter (fun e => !decide (f e ∈ (L.take k).map f)) := by
      refine List.filter_congr ?_
      intro e he
      simp [List.mem_cons, hnd2.1 e he]
    rw [hcong, filter_notMem_take f k L hnd2.2]

/-- C2: when the publish attempt at position k of the fetched batch
fails, the tick returns an error having published and marked exactly the
entries before position k, in order; the failing entry and everything
after it stay in the store unpublished and untouched, nothing after the
failure is logged to the broker, and the untouched remainder is exactly
the front of what the next tick fetches. -/
theorem processOutbox_partial_batch (st : Store) (log : List BrokerMessage)
    (now : Nat) (sendOk : Nat → Bool) (k : Nat)
    (hnodup : (st.outbox.map (fun e => e.id)).Nodup)
    (hk : k < (getUnpublishedOutbox st 100).length)
    (hok : ∀ j, j < k → sendOk j = true)
    (hfail : sendOk k = false) :
    (processOutbox st log now sendOk).ok = false
  ∧ (processOutbox st log now sendOk).log
      = log ++ ((getUnpublishedOutbox st 100).take k).map mkProducerMessage
  ∧ (∀ e ∈ (getUnpublishedOutbox st 100).take k,
      ∃ e' ∈ (processOutbox st log now sendOk).store.outbox,
        e'.id = e.id ∧ e'.published = true)
  ∧ (∀ e ∈ (getUnpublishedOutbox st 100).drop k,
      e ∈ (processOutbox st log now sendOk).store.outbox ∧ e.published = false)
  ∧ (getUnpublishedOutbox st 100).drop k
      = (getUnpublishedOutbox (processOutbox st log now sendOk).store 100).take (100 - k) := by
  have hloop := publishLoop_stops now sendOk (getUnpublishedOutbox st 100) k 0 st log hk
    (fun j hj => by simpa using hok j hj) (by simpa using hfail)
  have hres : processOutbox st log now sendOk
      = ⟨markAllPublished now st ((getUnpublishedOutbox st 100).take k),
         log ++ ((getUnpublishedOutbox st 100).take k).map mkProducerMessage, false⟩ := by
    rw [processOutbox]; exact hloop
  have hk100 : k ≤ 100 := by
    have h2 := List.length_take_le 100
      (List.insertionSort outboxLE (st.outbox.filter (fun e => !e.published)))
    simp only [getUnpublishedOutbox] at hk
    omega
  have hids : ((getUnpublishedOutbox st 100).take k).map (fun x => x.id)
      = (((List.insertionSort outboxLE
            (st.outbox.filter (fun e => !e.published))).take k).map (fun x => x.id)) := by
    simp only [getUnpublishedOutbox]
    rw [List.take_take]
    congr 2
    omega
  have houtbox : (processOutbox st log now sendOk).store.outbox
      = st.outbox.map (markFn (((List.insertionSort outboxLE
          (st.outbox.filter (fun e => !e.published))).take k).map (fun x => x.id)) now) := by
    rw [hres]
    rw [← hids]
    exact markAll_outbox _ st now
  have hmemStore : ∀ e ∈ getUnpublishedOutbox st 100, e ∈ st.outbox ∧ e.published = false := by
    intro e he
    simp only [getUnpublishedOutbox] at he
    have h1 := List.mem_of_mem_take he
    have h2 := (List.mem_insertionSort outboxLE).1 h1
    exact ⟨List.mem_of_mem_filter h2, by simpa using List.of_mem_filter h2⟩
  have hnodupF : ((st.outbox.filter (fun e => !e.published)).map (fun e => e.id)).Nodup :=
    List.Nodup.sublist (List.Sublist.map _ (List.filter_sublist _)) hnodup
  have hnodupS0 : ((List.insertionSort outboxLE
      (st.outbox.filter (fun e => !e.published))).map (fun e => e.id)).Nodup :=
    (List.Perm.nodup_iff ((List.perm_insertionSort outboxLE _).map _)).2 hnodupF
  have hnodupBatch : ((getUnpublishedOutbox st 100).map (fun e => e.id)).Nodup := by
    simp only [getUnpublishedOutbox]
    exact List.Nodup.sublist (List.Sublist.map _ (List.take_sublist _ _)) hnodupS0
  have hdisj : ∀ e ∈ (getUnpublishedOutbox st 100).drop k,
      e.id ∉ ((getUnpublishedOutbox st 100).take k).map (fun x => x.id) := by
    intro e he hmem
    have hsplit : (getUnpublishedOutbox st 100).map (fun x => x.id)
        = ((getUnpublishedOutbox st 100).take k).map (fun x => x.id)
          ++ ((getUnpublishedOutbox st 100).drop k).map (fun x => x.id) := by
      rw [← List.map_append, List.take_append_drop]
    have hnd : (((getUnpublishedOutbox st 100).take k).map (fun x => x.id)
        ++ ((getUnpublishedOutbox st 100).drop k).map (fun x => x.id)).Nodup := by
      rw [← hsplit]; exact hnodupBatch
    exact List.disjoint_of_nodup_append hnd hmem (List.mem_map_of_mem _ he)
  refine ⟨by rw [hres], by rw [hres], ?_, ?_, ?_⟩
  · intro e he
    have hins := hmemStore e (List.mem_of_mem_take he)
    have hid : e.id ∈ ((getUnpublishedOutbox st 100).take k).map (fun x => x.id) :=
      List.mem_map_of_mem _ he
    rw [hids, List.map_take] at hid
    refine ⟨markFn (((List.insertionSort outboxLE
        (st.outbox.filter (fun e => !e.published))).take k).map (fun x => x.id)) now e,
      ?_, ?_, ?_⟩
    · rw [houtbox]; exact List.mem_map_of_mem _ hins.1
    · simp [markFn, hid]
    · simp [markFn, hid]
  · intro e he
    have hbatch : e ∈ getUnpublishedOutbox st 100 := by
      rw [← List.take_append_drop k (getUnpublishedOutbox st 100)]
      exact List.mem_append_right _ he
    have hins := hmemStore e hbatch
    have hnotin := hdisj e he
    rw [hids, List.map_take] at hnotin
    have hfix : markFn (((List.insertionSort outboxLE
        (st.outbox.filter (fun e => !e.published))).take k).map (fun x => x.id)) now e = e := by
      simp [markFn, hnotin]
    constructor
    · rw [houtbox]
      have hm := List.mem_map_of_mem (markFn (((List.insertionSort outboxLE
        (st.outbox.filter (fun e => !e.published))).take k).map (fun x => x.id)) now) hins.1
      rwa [hfix] at hm
    · exact hins.2
  · have hnewF : ((processOutbox st log now sendOk).store.outbox).filter (fun e => !e.published)
        = (st.outbox.filter (fun e => !e.published)).filter
            (fun e => !decide (e.id ∈ ((List.insertionSort outboxLE
              (st.outbox.filter (fun e => !e.published))).take k).map (fun x => x.id))) := by
      rw [houtbox, List.filter_map]
      have hpc : ((fun e : OutboxEntry => !e.published) ∘ (markFn (((List.insertionSort outboxLE
          (st.outbox.filter (fun e => !e.published))).take k).map (fun x => x.id)) now))
          = fun e => (!decide (e.id ∈ ((List.insertionSort outboxLE
              (st.outbox.filter (fun e => !e.published))).take k).map (fun x => x.id))
            && !e.published) := by
        funext e
        by_cases hmem : e.id ∈ (List.map (fun x : OutboxEntry => x.id)
            (List.insertionSort outboxLE
              (st.outbox.filter (fun e => !e.published)))).take k <;>
          simp [Function.comp, markFn, hmem]
      rw [hpc, ← List.filter_filter]
      have huntouched : ∀ e ∈ (st.outbox.filter (fun e => !e.published)).filter
          (fun e => !decide (e.id ∈ ((List.insertionSort outboxLE
            (st.outbox.filter (fun e => !e.published))).take k).map (fun x => x.id))),
          markFn (((List.insertionSort outboxLE
            (st.outbox.filter (fun e => !e.published))).take k).map (fun x => x.id)) now e
            = e := by
        intro e he
        have hni := List.of_mem_filter he
        simp only [Bool.not_eq_true', decide_eq_false_iff_not] at hni
        rw [List.map_take] at hni
        simp [markFn, hni]
      rw [List.map_congr_left huntouched]
      simp
    have hsort : List.insertionSort outboxLE
        (((processOutbox st log now sendOk).store.outbox).filter (fun e => !e.published))
        = (List.insertionSort outboxLE (st.outbox.filter (fun e => !e.published))).drop k := by
      rw [hnewF, insertionSort_filter]
      exact filter_notMem_take (fun e : OutboxEntry => e.id) k
        (List.insertionSort outboxLE (st.outbox.filter (fun e => !e.published))) hnodupS0
    simp only [getUnpublishedOutbox]
    rw [hsort, List.take_take, List.drop_take]
    congr 1
    omega

/-- Older concrete pending outbox row used by the C2 witness. -/
def entryC2a : OutboxEntry :=
  { id := 1, notificationId := 10, topic := "notifications",
    payload := JValue.jobj [], published := false, createdAt := 0,
    publishedAt := none }

/-- Newer concrete pending outbox row used by the C2 witness. -/
def entryC2b : OutboxEntry :=
  { id := 2, notificationId := 11, topic := "notifications",
    payload := JValue.jobj [], published := false, createdAt := 1,
    publishedAt := none }

/-- Concrete store with two pending entries used by the C2 witness. -/
def storeC2 : Store := ⟨[], [entryC2a, entryC2b], [], [], []⟩

/-- C2 witness: with two pending entries and the second send failing,
only the first is published and marked and the second heads the next
tick's batch. -/
theorem processOutbox_partial_batch_witness :
    (processOutbox storeC2 [] 7 (fun j => decide (j = 0))).ok = false
  ∧ (processOutbox storeC2 [] 7 (fun j => decide (j = 0))).log
      = [] ++ ((getUnpublishedOutbox storeC2 100).take 1).map mkProducerMessage
  ∧ (∀ e ∈ (getUnpublishedOutbox storeC2 100).take 1,
      ∃ e' ∈ (processOutbox storeC2 [] 7 (fun j => decide (j = 0))).store.outbox,
        e'.id = e.id ∧ e'.published = true)
  ∧ (∀ e ∈ (getUnpublishedOutbox storeC2 100).drop 1,
      e ∈ (processOutbox storeC2 [] 7 (fun j => decide (j = 0))).store.outbox
        ∧ e.published = false)
  ∧ (getUnpublishedOutbox storeC2 100).drop 1
      = (getUnpublishedOutbox
          (processOutbox storeC2 [] 7 (fun j => decide (j = 0))).store 100).take (100 - 1) :=
  processOutbox_partial_batch storeC2 [] 7 (fun j => decide (j = 0)) 1
    (by decide)
    (by decide)
    (fun j hj => by
      have hj0 : j = 0 := by omega
      subst hj0; rfl)
    (by rfl)

/-- Concrete valid create request used for C3. -/
def reqC3 : CreateRequest :=
  { userId := 7, rtype := "daily_reminder", channel := "in_app",
    priority := "medium", title := none, message := "hello",
    metadata := JValue.jobj [], scheduledFor := none }

/-- C3 counterexample: on the empty store, with the notification insert
succeeding and the outbox insert failing, CreateNotification returns an
error yet the store is not unchanged — the notification row it already
inserted stays, and no outbox row exists: the "both or neither" claim
fails. -/
theorem createNotification_claim_counterexample :
    (createNotificationService ⟨[], [], [], [], []⟩ reqC3 1 0 "notifications" true false).result
      = none
  ∧ ((createNotificationService ⟨[], [], [], [], []⟩ reqC3 1 0 "notifications"
      true false).store.notifications).length = 1
  ∧ (createNotificationService ⟨[], [], [], [], []⟩ reqC3 1 0 "notifications"
      true false).store.outbox = [] :=
  ⟨rfl, rfl, rfl⟩

/-- C3 (amended): on success both the Notification row and its
OutboxEntry (published = false) exist; a validation failure or a failed
notification insert leaves the store unchanged; but a failed outbox
insert after a successful notification insert returns an error while the
Notification row remains and no outbox row is written — the two inserts
are separate writes, not one atomic transaction. -/
theorem createNotification_amended (st : Store) (req : CreateRequest)
    (newId now : Nat) (topic : String) (okN okO : Bool) :
    (∀ n, (createNotificationService st req newId now topic okN okO).result = some n →
        n ∈ (createNotificationService st req newId now topic okN okO).store.notifications
      ∧ ∃ e ∈ (createNotificationService st req newId now topic okN okO).store.outbox,
          e.notificationId = n.id ∧ e.published = false)
  ∧ (okN = false → (createNotificationService st req newId now topic okN okO).store = st)
  ∧ (isValidNotificationType req.rtype = false ∨ isValidChannel req.channel = false →
        (createNotificationService st req newId now topic okN okO).store = st
      ∧ (createNotificationService st req newId now topic okN okO).result = none)
  ∧ (okN = true → okO = false →
      isValidNotificationType req.rtype = true → isValidChannel req.channel = true →
        (createNotificationService st req newId now topic okN okO).result = none
      ∧ (createNotificationService st req newId now topic okN okO).store.outbox = st.outbox
      ∧ ∃ n ∈ (createNotificationService st req newId now topic okN okO).store.notifications,
          n.id = newId) := by
  cases hT : isValidNotificationType req.rtype with
  | false =>
    refine ⟨?_, ?_, ?_, ?_⟩ <;> simp [createNotificationService, hT]
  | true =>
    cases hC : isValidChannel req.channel with
    | false =>
      refine ⟨?_, ?_, ?_, ?_⟩ <;> simp [createNotificationService, hT, hC]
    | true =>
      cases hN : okN with
      | false =>
        refine ⟨?_, ?_, ?_, ?_⟩ <;> simp [createNotificationService, hT, hC]
      | true =>
        cases hO : okO with
        | false =>
          refine ⟨?_, ?_, ?_, ?_⟩ <;>
            simp [createNotificationService, hT, hC, repoCreateNotification]
          exact ⟨_, Or.inr rfl, rfl⟩
        | true =>
          refine ⟨?_, ?_, ?_, ?_⟩ <;>
            simp [createNotificationService, hT, hC,
              repoCreateNotification, repoCreateOutboxEntry]
          exact ⟨_, Or.inr rfl, rfl, rfl⟩

/-- C3 witness: the amended statement at the concrete failing-outbox
call on the empty store. -/
theorem createNotification_amended_witness :
    (∀ n, (createNotificationService ⟨[], [], [], [], []⟩ reqC3 1 0 "notifications"
          true false).result = some n →
        n ∈ (createNotificationService ⟨[], [], [], [], []⟩ reqC3 1 0 "notifications"
          true false).store.notifications
      ∧ ∃ e ∈ (createNotificationService ⟨[], [], [], [], []⟩ reqC3 1 0 "notifications"
          true false).store.outbox, e.notificationId = n.id ∧ e.published = false)
  ∧ (true = false → (createNotificationService ⟨[], [], [], [], []⟩ reqC3 1 0 "notifications"
      true false).store = ⟨[], [], [], [], []⟩)
  ∧ (isValidNotificationType reqC3.rtype = false ∨ isValidChannel reqC3.channel = false →
        (createNotificationService ⟨[], [], [], [], []⟩ reqC3 1 0 "notifications"
          true false).store = ⟨[], [], [], [], []⟩
      ∧ (createNotificationService ⟨[], [], [], [], []⟩ reqC3 1 0 "notifications"
          true false).result = none)
  ∧ (true = true → false = false →
      isValidNotificationType reqC3.rtype = true → isValidChannel reqC3.channel = true →
        (createNotificationService ⟨[], [], [], [], []⟩ reqC3 1 0 "notifications"
          true false).result = none
      ∧ (createNotificationService ⟨[], [], [], [], []⟩ reqC3 1 0 "notifications"
          true false).store.outbox = ([] : List OutboxEntry)
      ∧ ∃ n ∈ (createNotificationService ⟨[], [], [], [], []⟩ reqC3 1 0 "notifications"
          true false).store.notifications, n.id = 1) :=
  createNotification_amended ⟨[], [], [], [], []⟩ reqC3 1 0 "notifications" true false

/-- One scheduler create call touches only the notifications and outbox
tables. -/
theorem dailyLoop_preserves (now : Nat) : ∀ (us : List User) (st : Store) (b : Nat),
    (dailyLoop now us st b).users = st.users ∧ (dailyLoop now us st b).prefs = st.prefs
  | [], _, _ => ⟨rfl, rfl⟩
  | u :: us, st, b => by
    have ih := dailyLoop_preserves now us (createDailyReminderSched st u b now) (b + 1)
    have hc : (createDailyReminderSched st u b now).users = st.users
        ∧ (createDailyReminderSched st u b now).prefs = st.prefs := by
      simp [createDailyReminderSched, repoCreateNotification, repoCreateOutboxEntry]
    exact ⟨ih.1.trans hc.1, ih.2.trans hc.2⟩

/-- The effect of one scheduler create on the per-day reminder count. -/
theorem countDaily_createDaily (st : Store) (u : User) (nid now uid d : Nat) :
    countDaily (createDailyReminderSched st u nid now) uid d
      = countDaily st uid d + (if u.id = uid ∧ dateOf now = d then 1 else 0) := by
  simp only [createDailyReminderSched, countDaily, repoCreateOutboxEntry,
    repoCreateNotification, dailyReminderNotification, List.filter_append,
    List.length_append]
  by_cases h1 : u.id = uid
  · by_cases h2 : dateOf now = d
    · simp [List.filter_cons, h1, h2]
    · simp [List.filter_cons, h1, h2]
  · simp [List.filter_cons, h1]

/-- The effect of a whole scheduler tick loop on the per-day reminder
count: one new reminder per cohort user with the right id, when the tick
runs on day d. -/
theorem countDaily_dailyLoop (now uid d : Nat) : ∀ (us : List User) (st : Store) (b : Nat),
    countDaily (dailyLoop now us st b) uid d
      = countDaily st uid d
        + (if dateOf now = d then us.countP (fun u => u.id = uid) else 0)
  | [], st, b => by simp [dailyLoop]
  | u :: us, st, b => by
    have ih := countDaily_dailyLoop now uid d us (createDailyReminderSched st u b now) (b + 1)
    have hstep := countDaily_createDaily st u b now uid d
    have hloop : dailyLoop now (u :: us) st b
        = dailyLoop now us (createDailyReminderSched st u b now) (b + 1) := rfl
    rw [hloop, ih, hstep, List.countP_cons]
    by_cases h1 : u.id = uid
    · by_cases h2 : dateOf now = d
      · simp [h1, h2]
        omega
      · simp [h1, h2]
    · by_cases h2 : dateOf now = d <;> simp [h1, h2]

/-- C4: for a recipient with an enabled daily_reminder/in_app preference
and no daily_reminder yet today, the first scheduler tick's cohort query
includes them, the second (same-day, sequential) tick's NOT-EXISTS guard
excludes them, and after both ticks exactly one daily_reminder
notification exists for them that day. -/
theorem dailyReminder_once_per_day (st : Store) (uid : Nat) (now now2 b1 b2 : Nat)
    (hu : st.users.countP (fun u => u.id = uid) = 1)
    (hpref : ∃ p ∈ st.prefs, p.userId = uid ∧ p.ptype = "daily_reminder"
      ∧ p.channel = "in_app" ∧ p.enabled = true)
    (hnone : countDaily st uid (dateOf now) = 0)
    (hday : dateOf now2 = dateOf now) :
    (∃ u ∈ getUsersNeedingDailyReminders st now, u.id = uid)
  ∧ (∀ u ∈ getUsersNeedingDailyReminders (processDailyReminders st now b1) now2, u.id ≠ uid)
  ∧ countDaily (processDailyReminders (processDailyReminders st now b1) now2 b2)
      uid (dateOf now) = 1 := by
  have hneedsT : ∀ u : User, u.id = uid → needsDailyReminder st now u = true := by
    intro u hid
    obtain ⟨p, hp, hp1, hp2, hp3, hp4⟩ := hpref
    have hE : st.notifications.filter (fun n => n.userId = uid
        && n.ntype = "daily_reminder" && dateOf n.createdAt = dateOf now) = [] :=
      List.length_eq_zero.1 hnone
    have hnomatch : ∀ n ∈ st.notifications,
        ¬ (n.userId = uid && n.ntype = "daily_reminder"
            && dateOf n.createdAt = dateOf now) = true := by
      intro n hn hcontra
      have hmem : n ∈ st.notifications.filter (fun n => n.userId = uid
          && n.ntype = "daily_reminder" && dateOf n.createdAt = dateOf now) :=
        List.mem_filter.2 ⟨hn, hcontra⟩
      rw [hE] at hmem
      exact absurd hmem (List.not_mem_nil n)
    unfold needsDailyReminder
    simp only [hid]
    rw [Bool.and_eq_true]
    constructor
    · exact List.any_eq_true.2 ⟨p, hp, by simp [hp1, hp2, hp3, hp4]⟩
    · simp only [Bool.not_eq_true']
      exact List.any_eq_false.2 hnomatch
  have hpos : 0 < st.users.countP (fun u => u.id = uid) := by omega
  obtain ⟨u0, hu0, hu0p⟩ := List.countP_pos_iff.1 hpos
  have hu0id : u0.id = uid := by simpa using hu0p
  have hcohort1 : ∃ u ∈ getUsersNeedingDailyReminders st now, u.id = uid :=
    ⟨u0, List.mem_filter.2 ⟨hu0, hneedsT u0 hu0id⟩, hu0id⟩
  have h1 : countDaily (processDailyReminders st now b1) uid (dateOf now) = 1 := by
    unfold processDailyReminders
    rw [countDaily_dailyLoop, hnone, if_pos rfl]
    unfold getUsersNeedingDailyReminders
    rw [List.countP_filter]
    have hcong : ∀ a ∈ st.users,
        ((decide (a.id = uid)) && needsDailyReminder st now a) = decide (a.id = uid) := by
      intro a _
      by_cases h : a.id = uid
      · simp [h, hneedsT a h]
      · simp [h]
    rw [List.countP_eq_length_filter, List.filter_congr hcong,
      ← List.countP_eq_length_filter, hu]
  have husers1 : (processDailyReminders st now b1).users = st.users :=
    (dailyLoop_preserves now (getUsersNeedingDailyReminders st now) st b1).1
  have hexcl : ∀ u ∈ getUsersNeedingDailyReminders
      (processDailyReminders st now b1) now2, u.id ≠ uid := by
    intro u hu' hid
    have hmem := List.mem_filter.1 hu'
    have hneeds := hmem.2
    have hcnt : countDaily (processDailyReminders st now b1) uid (dateOf now2) = 1 := by
      rw [hday]; exact h1
    have hlen : 0 < ((processDailyReminders st now b1).notifications.filter
        (fun n => n.userId = uid && n.ntype = "daily_reminder"
          && dateOf n.createdAt = dateOf now2)).length := by
      unfold countDaily at hcnt
      omega
    obtain ⟨n, hn⟩ := List.exists_mem_of_length_pos hlen
    have hn2 := List.mem_filter.1 hn
    unfold needsDailyReminder at hneeds
    rw [Bool.and_eq_true] at hneeds
    have h2any := hneeds.2
    simp only [Bool.not_eq_true'] at h2any
    have hno := List.any_eq_false.1 h2any n hn2.1
    rw [hid] at hno
    exact absurd hn2.2 hno
  refine ⟨hcohort1, hexcl, ?_⟩
  have hloop2 : processDailyReminders (processDailyReminders st now b1) now2 b2
      = dailyLoop now2 (getUsersNeedingDailyReminders
          (processDailyReminders st now b1) now2) (processDailyReminders st now b1) b2 := rfl
  rw [hloop2, countDaily_dailyLoop, h1]
  have hzero : (getUsersNeedingDailyReminders
      (processDailyReminders st now b1) now2).countP (fun u => u.id = uid) = 0 := by
    apply List.countP_eq_zero.2
    intro u hu'
    simpa using hexcl u hu'
  rw [hzero]
  simp

/-- Concrete user for the C4 witness. -/
def userC4 : User := { id := 5, name := "u", email := "e" }

/-- Concrete enabled daily_reminder/in_app preference for the C4 witness. -/
def prefC4 : Preference :=
  { userId := 5, ptype := "daily_reminder", channel := "in_app", enabled := true }

/-- Concrete store for the C4 witness. -/
def storeC4 : Store := ⟨[], [], [userC4], [prefC4], []⟩

/-- C4 witness: two same-day sequential ticks on the concrete one-user
store create exactly one reminder. -/
theorem dailyReminder_once_per_day_witness :
    (∃ u ∈ getUsersNeedingDailyReminders storeC4 100, u.id = 5)
  ∧ (∀ u ∈ getUsersNeedingDailyReminders (processDailyReminders storeC4 100 1) 200, u.id ≠ 5)
  ∧ countDaily (processDailyReminders (processDailyReminders storeC4 100 1) 200 2)
      5 (dateOf 100) = 1 :=
  dailyReminder_once_per_day storeC4 5 100 200 1 2
    (by decide)
    ⟨prefC4, by simp [storeC4], rfl, rfl, rfl, rfl⟩
    rfl
    rfl

/- ===== JSONMap database (un)marshalling (part_003 lines 14..40) =====

`JSONMap.Value` marshals the map with `encoding/json`; `JSONMap.Scan`
unmarshals bytes or a string and handles nil.  The Go standard `json`
codec is modelled here by an executable renderer and parser over
`JValue` (objects keep field order; numbers are integers). -/

/-- Opening brace character. -/
def lbraceC : Char := Char.ofNat 123

/-- Closing brace character. -/
def rbraceC : Char := Char.ofNat 125

/-- The decimal digit character for d. -/
def digitChar (d : Nat) : Char := Char.ofNat (48 + d)

/-- Whether a character is a decimal digit. -/
def isDigitCh (c : Char) : Bool := 48 ≤ c.toNat && c.toNat ≤ 57

/-- Numeric value of a digit character. -/
def digitVal (c : Char) : Nat := c.toNat - 48

/-- JSON string escaping of one character. -/
def escapeChar (c : Char) : List Char :=
  if c = '"' ∨ c = '\\' then ['\\', c] else [c]

/-- JSON string escaping. -/
def escapeChars : List Char → List Char
  | [] => []
  | c :: cs => escapeChar c ++ escapeChars cs

/-- Decimal rendering of a natural number. -/
def renderNat (n : Nat) : List Char :=
  if n = 0 then [digitChar 0] else (Nat.digits 10 n).reverse.map digitChar

/-- Decimal rendering of an integer. -/
def renderInt (i : Int) : List Char :=
  if i < 0 then '-' :: renderNat i.natAbs else renderNat i.toNat

/-- A JSON string literal. -/
def renderStringChars (s : String) : List Char :=
  '"' :: (escapeChars s.data ++ ['"'])

mutual

/-- Render a JSON value (the model of `json.Marshal`). -/
def renderJ : JValue → List Char
  | .jnull => ['n', 'u', 'l', 'l']
  | .jbool true => ['t', 'r', 'u', 'e']
  | .jbool false => ['f', 'a', 'l', 's', 'e']
  | .jnum i => renderInt i
  | .jstr s => renderStringChars s
  | .jarr xs => '[' :: (renderElems xs ++ [']'])
  | .jobj fs => lbraceC :: (renderFields fs ++ [rbraceC])

/-- Render comma-separated array elements. -/
def renderElems : List JValue → List Char
  | [] => []
  | [x] => renderJ x
  | x :: y :: t => renderJ x ++ ',' :: renderElems (y :: t)

/-- Render comma-separated object fields. -/
def renderFields : List (String × JValue) → List Char
  | [] => []
  | [(k, v)] => renderStringChars k ++ ':' :: renderJ v
  | (k, v) :: g :: t =>
    renderStringChars k ++ ':' :: renderJ v ++ ',' :: renderFields (g :: t)

end

/-- Greedy decimal parser with accumulator. -/
def parseNatAcc : Nat → List Char → Nat × List Char
  | acc, [] => (acc, [])
  | acc, c :: cs =>
    if isDigitCh c then parseNatAcc (10 * acc + digitVal c) cs else (acc, c :: cs)

/-- Parse a JSON string body up to the closing quote, undoing escapes. -/
def parseStringBody : List Char → Option (List Char × List Char)
  | [] => none
  | c :: cs =>
    if c = '"' then some ([], cs)
    else if c = '\\' then
      match cs with
      | [] => none
      | d :: cs2 =>
        match parseStringBody cs2 with
        | none => none
        | some (s, r) => some (d :: s, r)
    else
      match parseStringBody cs with
      | none => none
      | some (s, r) => some (c :: s, r)

/-- One step of the JSON value parser, parameterized by the parsers for
nonempty array elements and object fields. -/
def parseValStep (pe : List Char → Option (List JValue × List Char))
    (pf : List Char → Option (List (String × JValue) × List Char)) :
    List Char → Option (JValue × List Char)
  | [] => none
  | c :: rest =>
    if c = 'n' then
      match rest with
      | 'u' :: 'l' :: 'l' :: r => some (.jnull, r)
      | _ => none
    else if c = 't' then
      match rest with
      | 'r' :: 'u' :: 'e' :: r => some (.jbool true, r)
      | _ => none
    else if c = 'f' then
      match rest with
      | 'a' :: 'l' :: 's' :: 'e' :: r => some (.jbool false, r)
      | _ => none
    else if c = '"' then
      match parseStringBody rest with
      | some (s, r) => some (.jstr (String.mk s), r)
      | none => none
    else if c = '-' then
      match rest with
      | d :: rest2 =>
        if isDigitCh d then
          let p := parseNatAcc (digitVal d) rest2
          some (.jnum (-(p.1 : Int)), p.2)
        else none
      | [] => none
    else if isDigitCh c then
      let p := parseNatAcc (digitVal c) rest
      some (.jnum (p.1 : Int), p.2)
    else if c = '[' then
      match rest with
      | d :: r2 =>
        if d = ']' then some (.jarr [], r2)
        else
          match pe rest with
          | some (xs, r) => some (.jarr xs, r)
          | none => none
      | [] => none
    else if c = lbraceC then
      match rest with
      | d :: r2 =>
        if d = rbraceC then some (.jobj [], r2)
        else
          match pf rest with
          | some (fs, r) => some (.jobj fs, r)
          | none => none
      | [] => none
    else none

/-- One step of the array-element parser, parameterized by the value
parser and the parser for the remaining elements. -/
def parseElemsStep (pv : List Char → Option (JValue × List Char))
    (pe : List Char → Option (List JValue × List Char))
    (cs : List Char) : Option (List JValue × List Char) :=
  match pv cs with
  | none => none
  | some (v, r) =>
    match r with
    | c :: r2 =>
      if c = ',' then
        match pe r2 with
        | some (vs, r3) => some (v :: vs, r3)
        | none => none
      else if c = ']' then some ([v], r2)
      else none
    | [] => none

/-- One step of the object-field parser, parameterized by the value
parser and the parser for the remaining fields. -/
def parseFieldsStep (pv : List Char → Option (JValue × List Char))
    (pf : List Char → Option (List (String × JValue) × List Char))
    (cs : List Char) : Option (List (String × JValue) × List Char) :=
  match cs with
  | c :: r0 =>
    if c = '"' then
      match parseStringBody r0 with
      | some (k, r1) =>
        match r1 with
        | d :: r2 =>
          if d = ':' then
            match pv r2 with
            | some (v, r3) =>
              match r3 with
              | e :: r4 =>
                if e = ',' then
                  match pf r4 with
                  | some (fs, r5) => some ((String.mk k, v) :: fs, r5)
                  | none => none
                else if e = rbraceC then some ([(String.mk k, v)], r4)
                else none
              | [] => none
            | none => none
          else none
        | [] => none
      | none => none
    else none
  | [] => none

mutual

/-- Parse one JSON value (the model of `json.Unmarshal`); the fuel
bounds the nesting of parse steps. -/
def parseVal : Nat → List Char → Option (JValue × List Char)
  | 0, _ => none
  | fuel + 1, cs => parseValStep (parseElems fuel) (parseFields fuel) cs

/-- Parse the elements of a nonempty array including the closing
bracket. -/
def parseElems : Nat → List Char → Option (List JValue × List Char)
  | 0, _ => none
  | fuel + 1, cs => parseElemsStep (parseVal fuel) (parseElems fuel) cs

/-- Parse the fields of a nonempty object including the closing brace. -/
def parseFields : Nat → List Char → Option (List (String × JValue) × List Char)
  | 0, _ => none
  | fuel + 1, cs => parseFieldsStep (parseVal fuel) (parseFields fuel) cs

end

/-- Enough fuel to parse any rendering of this length. -/
def jsonFuel (cs : List Char) : Nat := 2 * cs.length + 2

/-- `json.Unmarshal`: parse the whole input as one JSON value. -/
def jsonUnmarshal (cs : List Char) : Option JValue :=
  match parseVal (jsonFuel cs) cs with
  | some (v, []) => some v
  | _ => none

/-- The Go `models.JSONMap` (a possibly-nil map). -/
abbrev JSONMap := Option (List (String × JValue))

/-- The `driver.Value` cases the Scan type switch distinguishes:
byte-slice, string, and anything else. -/
inductive DriverValue where
  | bytes : List Char → DriverValue
  | strv : List Char → DriverValue
  | otherv : DriverValue

/-- Unmarshalling bytes into a `JSONMap` target: a JSON object yields
the map, JSON null yields the nil map, anything else is an error. -/
def jsonMapScanBytes (cs : List Char) : Except String JSONMap :=
  match jsonUnmarshal cs with
  | some (.jobj fs) => .ok (some fs)
  | some .jnull => .ok none
  | _ => .error "cannot unmarshal into JSONMap"

/-- `JSONMap.Scan` (part_003 lines 18..32): nil sets the nil map;
byte-slice and string values are unmarshalled; any other driver type is
an error. -/
def jsonMapScan (v : Option DriverValue) : Except String JSONMap :=
  match v with
  | none => .ok none
  | some (.bytes cs) => jsonMapScanBytes cs
  | some (.strv cs) => jsonMapScanBytes cs
  | some .otherv => .error "cannot scan value into JSONMap"

/-- `JSONMap.Value` (part_003 lines 35..40): nil maps to the SQL NULL
driver value, anything else is marshalled. -/
def jsonMapValue (j : JSONMap) : Option DriverValue :=
  match j with
  | none => none
  | some m => some (.bytes (renderJ (.jobj m)))

theorem digitChar_toNat (d : Nat) (h : d < 10) : (digitChar d).toNat = 48 + d := by
  interval_cases d <;> decide

theorem isDigitCh_digitChar (d : Nat) (h : d < 10) : isDigitCh (digitChar d) = true := by
  interval_cases d <;> decide

theorem digitVal_digitChar (d : Nat) (h : d < 10) : digitVal (digitChar d) = d := by
  interval_cases d <;> decide

/-- The continuation after a rendered number never starts with a digit,
so the greedy number parser stops exactly at its end. -/
def headNotDigit (cs : List Char) : Prop :=
  ∀ c, cs.head? = some c → isDigitCh c = false

theorem parseNatAcc_digits (rest : List Char) (hrest : headNotDigit rest) :
    ∀ (bs : List Nat) (acc : Nat), (∀ b ∈ bs, b < 10) →
      parseNatAcc acc (bs.map digitChar ++ rest)
        = (bs.foldl (fun a d => 10 * a + d) acc, rest)
  | [], acc, _ => by
    cases hr : rest with
    | nil => simp [parseNatAcc]
    | cons c t =>
      have hd := hrest c (by rw [hr]; rfl)
      simp [parseNatAcc, hd]
  | b :: bs, acc, hb => by
    have hb0 : b < 10 := hb b (List.mem_cons_self _ _)
    have ih := parseNatAcc_digits rest hrest bs (10 * acc + b)
      (fun x hx => hb x (List.mem_cons_of_mem _ hx))
    simp only [List.map_cons, List.cons_append, parseNatAcc,
      isDigitCh_digitChar b hb0, if_true, digitVal_digitChar b hb0, List.append_eq]
    rw [ih]
    simp

theorem foldl_reverse_ofDigits : ∀ ds : List Nat,
    (ds.reverse).foldl (fun a d => 10 * a + d) 0 = Nat.ofDigits 10 ds
  | [] => by simp [Nat.ofDigits]
  | d :: ds => by
    rw [List.reverse_cons, List.foldl_append, foldl_reverse_ofDigits ds,
      Nat.ofDigits_cons]
    simp only [List.foldl_cons, List.foldl_nil]
    omega

theorem parseNat_renderNat (n : Nat) (rest : List Char) (hrest : headNotDigit rest) :
    ∃ c cs, renderNat n = c :: cs ∧ isDigitCh c = true
      ∧ parseNatAcc (digitVal c) (cs ++ rest) = (n, rest) := by
  by_cases h0 : n = 0
  · subst h0
    refine ⟨digitChar 0, [], rfl, by decide, ?_⟩
    rw [digitVal_digitChar 0 (by omega)]
    simpa using parseNatAcc_digits rest hrest [] 0 (by simp)
  · have hne : Nat.digits 10 n ≠ [] := Nat.digits_ne_nil_iff_ne_zero.2 h0
    have hlt : ∀ b ∈ Nat.digits 10 n, b < 10 :=
      fun b hb => Nat.digits_lt_base (by omega) hb
    cases hbs : (Nat.digits 10 n).reverse with
    | nil => exact absurd (by simpa using hbs) hne
    | cons b bt =>
      have hmem : ∀ x ∈ b :: bt, x < 10 := by
        intro x hx
        apply hlt
        have hx2 : x ∈ (Nat.digits 10 n).reverse := by rw [hbs]; exact hx
        simpa using hx2
      have hb10 : b < 10 := hmem b (List.mem_cons_self _ _)
      refine ⟨digitChar b, bt.map digitChar, ?_, isDigitCh_digitChar b hb10, ?_⟩
      · rw [renderNat, if_neg h0, hbs]
        simp
      · have hacc := parseNatAcc_digits rest hrest bt b
          (fun x hx => hmem x (List.mem_cons_of_mem _ hx))
        rw [digitVal_digitChar b hb10, hacc]
        have h1 : (b :: bt).foldl (fun a d => 10 * a + d) 0 = n := by
          rw [← hbs, foldl_reverse_ofDigits, Nat.ofDigits_digits]
        simp only [List.foldl_cons] at h1
        have h2 : bt.foldl (fun a d => 10 * a + d) b = n := by
          have harith : 10 * 0 + b = b := by omega
          rwa [harith] at h1
        rw [h2]

theorem parseStringBody_escape : ∀ (cs rest : List Char),
    parseStringBody (escapeChars cs ++ '"' :: rest) = some (cs, rest)
  | [], rest => by
    rw [parseStringBody.eq_def]
    simp [escapeChars]
  | c :: cs, rest => by
    by_cases hc : c = '"' ∨ c = '\\'
    · simp only [escapeChars, escapeChar, if_pos hc, List.cons_append,
        List.append_assoc]
      rw [parseStringBody.eq_def]
      simp [parseStringBody_escape cs rest]
    · have h1 : ¬ c = '"' := fun h => hc (Or.inl h)
      have h2 : ¬ c = '\\' := fun h => hc (Or.inr h)
      simp only [escapeChars, escapeChar, if_neg hc, List.singleton_append]
      rw [parseStringBody.eq_def]
      simp [h1, h2, parseStringBody_escape cs rest]

/-- A digit character is none of the characters that start another kind
of JSON token, nor a closing delimiter. -/
theorem digit_head_ne {c : Char} (hd : isDigitCh c = true) :
    ¬ c = ']' ∧ ¬ c = rbraceC ∧ ¬ c = 'n' ∧ ¬ c = 't' ∧ ¬ c = 'f'
      ∧ ¬ c = '"' ∧ ¬ c = '-' ∧ ¬ c = '[' ∧ ¬ c = lbraceC := by
  have h1 : 48 ≤ c.toNat ∧ c.toNat ≤ 57 := by
    simpa [isDigitCh] using hd
  refine ⟨?_, ?_, ?_, ?_, ?_, ?_, ?_, ?_, ?_⟩ <;>
    (intro he; rw [he] at h1; revert h1; decide)

/-- Every rendered value starts with a character that is not a closing
delimiter. -/
theorem renderJ_head : ∀ v : JValue,
    ∃ c cs, renderJ v = c :: cs ∧ ¬ c = ']' ∧ ¬ c = rbraceC
  | .jnull => ⟨'n', ['u', 'l', 'l'], by simp [renderJ], by decide, by decide⟩
  | .jbool true => ⟨'t', ['r', 'u', 'e'], by simp [renderJ], by decide, by decide⟩
  | .jbool false => ⟨'f', ['a', 'l', 's', 'e'], by simp [renderJ], by decide, by decide⟩
  | .jstr s => ⟨'"', escapeChars s.data ++ ['"'],
      by simp [renderJ, renderStringChars], by decide, by decide⟩
  | .jarr xs => ⟨'[', renderElems xs ++ [']'], by simp [renderJ], by decide, by decide⟩
  | .jobj fs => ⟨lbraceC, renderFields fs ++ [rbraceC],
      by simp [renderJ], by decide, by decide⟩
  | .jnum i => by
    by_cases hneg : i < 0
    · exact ⟨'-', renderNat i.natAbs, by simp [renderJ, renderInt, hneg],
        by decide, by decide⟩
    · obtain ⟨c, cs, hr, hd, _⟩ := parseNat_renderNat i.toNat []
        (by intro c hc; simp at hc)
      have hne := digit_head_ne hd
      exact ⟨c, cs, by simp [renderJ, renderInt, hneg, hr], hne.1, hne.2.1⟩



mutual

/-- Parsing inverts rendering for a single JSON value, given fuel beyond
twice the rendering's length and a continuation that does not begin with
a digit. -/
theorem parseVal_render : ∀ (v : JValue) (fuel : Nat),
    2 * (renderJ v).length + 1 ≤ fuel →
    ∀ rest : List Char, headNotDigit rest →
    parseVal fuel (renderJ v ++ rest) = some (v, rest)
  | _, 0, hf, _, _ => absurd hf (by omega)
  | .jnull, f + 1, _, rest, _ => by
    have hshape : renderJ .jnull ++ rest = 'n' :: 'u' :: 'l' :: 'l' :: rest := by
      simp [renderJ]
    rw [hshape]
    simp [parseVal, parseValStep]
  | .jbool true, f + 1, _, rest, _ => by
    have hshape : renderJ (.jbool true) ++ rest = 't' :: 'r' :: 'u' :: 'e' :: rest := by
      simp [renderJ]
    rw [hshape]
    simp [parseVal, parseValStep]
  | .jbool false, f + 1, _, rest, _ => by
    have hshape : renderJ (.jbool false) ++ rest
        = 'f' :: 'a' :: 'l' :: 's' :: 'e' :: rest := by
      simp [renderJ]
    rw [hshape]
    simp [parseVal, parseValStep]
  | .jstr s, f + 1, _, rest, _ => by
    have hshape : renderJ (.jstr s) ++ rest
        = '"' :: (escapeChars s.data ++ '"' :: rest) := by
      simp [renderJ, renderStringChars]
    rw [hshape]
    simp [parseVal, parseValStep, parseStringBody_escape s.data rest]
  | .jnum i, f + 1, _, rest, hrest => by
    by_cases hneg : i < 0
    · obtain ⟨c, cs, hr, hd, hp⟩ := parseNat_renderNat i.natAbs rest hrest
      have hshape : renderJ (.jnum i) ++ rest = '-' :: (c :: (cs ++ rest)) := by
        simp [renderJ, renderInt, hneg, hr]
      rw [hshape]
      have habs : ((i.natAbs : Nat) : Int) = -i := by omega
      simp [parseVal, parseValStep, hd, hp, habs]
    · obtain ⟨c, cs, hr, hd, hp⟩ := parseNat_renderNat i.toNat rest hrest
      obtain ⟨hn1, hn2, hn3, hn4, hn5, hn6, hn7, hn8, hn9⟩ := digit_head_ne hd
      have hshape : renderJ (.jnum i) ++ rest = c :: (cs ++ rest) := by
        simp [renderJ, renderInt, hneg, hr]
      rw [hshape]
      simp [parseVal, parseValStep, hn3, hn4, hn5, hn6, hn7, hd, hp]
      omega
  | .jarr [], f + 1, _, rest, _ => by
    have hshape : renderJ (.jarr []) ++ rest = '[' :: ']' :: rest := by
      simp [renderJ, renderElems]
    rw [hshape]
    simp [parseVal, parseValStep, isDigitCh]
  | .jarr (x :: t), f + 1, hf, rest, _ => by
    obtain ⟨c0, cs0, hh, hne1, _⟩ := renderJ_head x
    have hfe : 2 * (renderElems (x :: t)).length + 2 ≤ f := by
      have hlen : (renderJ (.jarr (x :: t))).length
          = (renderElems (x :: t)).length + 2 := by
        simp [renderJ]
      omega
    have hcons : ∃ tl, renderElems (x :: t) ++ ']' :: rest = c0 :: tl := by
      cases t with
      | nil => exact ⟨cs0 ++ ']' :: rest, by simp [renderElems, hh]⟩
      | cons y tt =>
        exact ⟨cs0 ++ ',' :: renderElems (y :: tt) ++ ']' :: rest,
          by simp [renderElems, hh]⟩
    obtain ⟨tl, htl⟩ := hcons
    have hshape : renderJ (.jarr (x :: t)) ++ rest = '[' :: (c0 :: tl) := by
      rw [← htl]
      simp [renderJ]
    have helems := parseElems_render (x :: t) f rest (by simp) hfe
    rw [htl] at helems
    rw [hshape]
    simp [parseVal, parseValStep, isDigitCh, hne1, helems]
  | .jobj [], f + 1, _, rest, _ => by
    have hshape : renderJ (.jobj []) ++ rest = lbraceC :: rbraceC :: rest := by
      simp [renderJ, renderFields]
    rw [hshape]
    simp [parseVal, parseValStep, isDigitCh, lbraceC, rbraceC]
  | .jobj ((k, v) :: t), f + 1, hf, rest, _ => by
    have hff : 2 * (renderFields ((k, v) :: t)).length + 2 ≤ f := by
      have hlen : (renderJ (.jobj ((k, v) :: t))).length
          = (renderFields ((k, v) :: t)).length + 2 := by
        simp [renderJ]
      omega
    have hcons : ∃ tl, renderFields ((k, v) :: t) ++ rbraceC :: rest = '"' :: tl := by
      cases t with
      | nil =>
        exact ⟨(escapeChars k.data ++ ['"']) ++ ':' :: renderJ v ++ rbraceC :: rest,
          by simp [renderFields, renderStringChars]⟩
      | cons g tt =>
        exact ⟨(escapeChars k.data ++ ['"'])
            ++ ':' :: renderJ v ++ ',' :: renderFields (g :: tt) ++ rbraceC :: rest,
          by simp [renderFields, renderStringChars]⟩
    obtain ⟨tl, htl⟩ := hcons
    have hshape : renderJ (.jobj ((k, v) :: t)) ++ rest = lbraceC :: ('"' :: tl) := by
      rw [← htl]
      simp [renderJ]
    have hfields := parseFields_render ((k, v) :: t) f rest (by simp) hff
    rw [htl] at hfields
    rw [hshape]
    simp [parseVal, parseValStep, isDigitCh, lbraceC, rbraceC, hfields]

/-- Parsing inverts rendering for the elements of a nonempty array,
through the closing bracket. -/
theorem parseElems_render : ∀ (xs : List JValue) (fuel : Nat) (rest : List Char),
    xs ≠ [] → 2 * (renderElems xs).length + 2 ≤ fuel →
    parseElems fuel (renderElems xs ++ ']' :: rest) = some (xs, rest)
  | [], _, _, hne, _ => absurd rfl hne
  | _ :: _, 0, _, _, hf => absurd hf (by omega)
  | [x], f + 1, rest, _, hf => by
    have hx : 2 * (renderJ x).length + 1 ≤ f := by
      have hlen : (renderElems [x]).length = (renderJ x).length := by
        simp [renderElems]
      omega
    have hrest2 : headNotDigit (']' :: rest) := by
      intro c hc
      simp at hc
      subst hc
      decide
    have hv := parseVal_render x f hx (']' :: rest) hrest2
    have hshape : renderElems [x] ++ ']' :: rest = renderJ x ++ ']' :: rest := by
      simp [renderElems]
    rw [hshape]
    simp [parseElems, parseElemsStep, hv]
  | x :: y :: t, f + 1, rest, _, hf => by
    have hlen : (renderElems (x :: y :: t)).length
        = (renderJ x).length + (renderElems (y :: t)).length + 1 := by
      simp [renderElems]
      omega
    have hx : 2 * (renderJ x).length + 1 ≤ f := by omega
    have hyt : 2 * (renderElems (y :: t)).length + 2 ≤ f := by omega
    have hrest2 : headNotDigit (',' :: (renderElems (y :: t) ++ ']' :: rest)) := by
      intro c hc
      simp at hc
      subst hc
      decide
    have hv := parseVal_render x f hx (',' :: (renderElems (y :: t) ++ ']' :: rest)) hrest2
    have hrec := parseElems_render (y :: t) f rest (by simp) hyt
    have hshape : renderElems (x :: y :: t) ++ ']' :: rest
        = renderJ x ++ (',' :: (renderElems (y :: t) ++ ']' :: rest)) := by
      simp [renderElems]
    rw [hshape]
    simp [parseElems, parseElemsStep, hv, hrec]

/-- Parsing inverts rendering for the fields of a nonempty object,
through the closing brace. -/
theorem parseFields_render : ∀ (fs : List (String × JValue)) (fuel : Nat)
    (rest : List Char), fs ≠ [] → 2 * (renderFields fs).length + 2 ≤ fuel →
    parseFields fuel (renderFields fs ++ rbraceC :: rest) = some (fs, rest)
  | [], _, _, hne, _ => absurd rfl hne
  | _ :: _, 0, _, _, hf => absurd hf (by omega)
  | [(k, v)], f + 1, rest, _, hf => by
    have hv : 2 * (renderJ v).length + 1 ≤ f := by
      have hlen : (renderFields [(k, v)]).length
          = (escapeChars k.data).length + 2 + 1 + (renderJ v).length := by
        simp [renderFields, renderStringChars]
        omega
      omega
    have hrest2 : headNotDigit (rbraceC :: rest) := by
      intro c hc
      simp at hc
      subst hc
      decide
    have hval := parseVal_render v f hv (rbraceC :: rest) hrest2
    have hstr := parseStringBody_escape k.data (':' :: (renderJ v ++ rbraceC :: rest))
    have hshape : renderFields [(k, v)] ++ rbraceC :: rest
        = '"' :: (escapeChars k.data ++ '"' :: (':' :: (renderJ v ++ rbraceC :: rest))) := by
      simp [renderFields, renderStringChars]
    rw [hshape]
    have hcomma : ¬ rbraceC = ',' := by decide
    simp [parseFields, parseFieldsStep, hstr, hval, hcomma]
  | (k, v) :: g :: t, f + 1, rest, _, hf => by
    have hlen : (renderFields ((k, v) :: g :: t)).length
        = (escapeChars k.data).length + 2 + 1 + (renderJ v).length
          + 1 + (renderFields (g :: t)).length := by
      simp [renderFields, renderStringChars]
      omega
    have hv : 2 * (renderJ v).length + 1 ≤ f := by omega
    have hgt : 2 * (renderFields (g :: t)).length + 2 ≤ f := by omega
    have hrest2 : headNotDigit (',' :: (renderFields (g :: t) ++ rbraceC :: rest)) := by
      intro c hc
      simp at hc
      subst hc
      decide
    have hval := parseVal_render v f hv
      (',' :: (renderFields (g :: t) ++ rbraceC :: rest)) hrest2
    have hrec := parseFields_render (g :: t) f rest (by simp) hgt
    have hstr := parseStringBody_escape k.data
      (':' :: (renderJ v ++ ',' :: (renderFields (g :: t) ++ rbraceC :: rest)))
    have hshape : renderFields ((k, v) :: g :: t) ++ rbraceC :: rest
        = '"' :: (escapeChars k.data ++ '"' ::
            (':' :: (renderJ v ++ ',' :: (renderFields (g :: t) ++ rbraceC :: rest)))) := by
      simp [renderFields, renderStringChars]
    rw [hshape]
    simp [parseFields, parseFieldsStep, hstr, hval, hrec]

end

/-- Unmarshalling a rendered JSON value recovers it exactly. -/
theorem jsonUnmarshal_render (v : JValue) : jsonUnmarshal (renderJ v) = some v := by
  have h := parseVal_render v (jsonFuel (renderJ v))
    (by simp [jsonFuel]) [] (by intro c hc; simp at hc)
  rw [List.append_nil] at h
  simp [jsonUnmarshal, h]

/-- C10: Scan is a left inverse of Value for the JSONMap database codec:
scanning the driver value produced by marshalling a non-nil map recovers
that map exactly (hence a JSON-equal map), and for the nil map Value
yields the NULL driver value while Scan of NULL yields the nil map. -/
theorem jsonMap_roundtrip :
    (∀ m : List (String × JValue),
        jsonMapScan (jsonMapValue (some m)) = Except.ok (some m))
  ∧ jsonMapValue none = none
  ∧ jsonMapScan none = Except.ok none := by
  refine ⟨?_, rfl, rfl⟩
  intro m
  simp [jsonMapValue, jsonMapScan, jsonMapScanBytes, jsonUnmarshal_render (JValue.jobj m)]

/-- C10 witness: the round trip at a concrete one-entry map. -/
theorem jsonMap_roundtrip_witness :
    jsonMapScan (jsonMapValue (some [("k", JValue.jnum 3)]))
      = Except.ok (some [("k", JValue.jnum 3)]) :=
  jsonMap_roundtrip.1 [("k", JValue.jnum 3)]
